import Mathlib

/-
Verification of the kydohub-auth frontend authorization layer.

Shallow embedding of:
  - src/lib/csrf.ts        (anti-forgery helpers)
  - src/lib/http.ts        (HTTP client: typed errors, EV-aware refresh or retry)
  - src/lib/acl.ts         (RBAC helpers over the me-context payload)
  - src/context/MeContext.tsx (second, independent permission-gate implementation)
  - src/components/access/Acl.tsx (two UI gate components in one file)
  - the backend guard chain, modelled from the documentation (no backend code
    is present in the tree).

JavaScript idioms are embedded as follows: optional or nullable fields become
Option, JS Set membership becomes List membership after the same normalization
the source applies, and JS Map insertion order semantics are modelled by an
association list with prepend-on-set.
-/


/-- JS String.prototype.trim modelled over the character list (the builtin
String.trim does not reduce in the kernel): drop whitespace from both ends. -/
def jsTrim (s : String) : String :=
  ⟨((s.data.dropWhile Char.isWhitespace).reverse.dropWhile
      Char.isWhitespace).reverse⟩

/-- JS String.prototype.toUpperCase modelled over the character list (the
builtin String.toUpper does not reduce in the kernel). -/
def jsToUpper (s : String) : String :=
  ⟨s.data.map Char.toUpper⟩

/- ===================================================================
   Part 1: src/lib/csrf.ts
   =================================================================== -/

/-- Name of the readable anti-forgery cookie (CSRF_COOKIE in csrf.ts). -/
def CSRF_COOKIE : String := "kydo_csrf"

/-- Name of the anti-forgery request header (CSRF_HEADER in csrf.ts). -/
def CSRF_HEADER : String := "X-CSRF"

/-- Methods that must carry the CSRF header (UNSAFE_METHODS set in csrf.ts). -/
def mutatingMethods : List String := ["POST", "PUT", "PATCH", "DELETE"]

/-- isUnsafeMethod from csrf.ts: `if (!method) return false; return
UNSAFE_METHODS.has(method.toUpperCase())`. The optional argument is an
Option. -/
def isUnsafeMethod : Option String → Bool
  | none => false
  | some m => mutatingMethods.contains (jsToUpper m)

/-- getCsrfToken from csrf.ts reads the kydo_csrf cookie from document.cookie;
the browser cookie jar is modelled as the Option value of that cookie. -/
def getCsrfToken (cookie : Option String) : Option String := cookie

/-- buildCsrfHeader from csrf.ts: only produced for state-changing methods,
skipped when no kydo_csrf cookie is available. -/
def buildCsrfHeader (cookie : Option String) (method : Option String) :
    List (String × String) :=
  if isUnsafeMethod method = false then []
  else
    match getCsrfToken cookie with
    | none => []
    | some token => [(CSRF_HEADER, token)]

/-- csrfHeaderFor from csrf.ts is an alias of buildCsrfHeader. -/
def csrfHeaderFor (cookie : Option String) (method : Option String) :
    List (String × String) :=
  buildCsrfHeader cookie method

/- ===================================================================
   Part 2: src/lib/http.ts
   =================================================================== -/

/-- Header list model of the JS Headers object: headers.set replaces any
existing entry with the same name. -/
def setHeader (hs : List (String × String)) (k v : String) :
    List (String × String) :=
  (hs.filter (fun h => h.1 ≠ k)) ++ [(k, v)]

/-- headers.get on the header list model: first entry with the name. -/
def getHeader (hs : List (String × String)) (k : String) : Option String :=
  (hs.find? (fun h => h.1 = k)).map (fun h => h.2)

/-- CSRF header injection step of request in http.ts (lines 193-200):
`needCsrf = options.requireCsrf || isUnsafe`, and when needed every entry of
`csrfHeaderFor(method)` is set on the Headers object. The method has already
been uppercased by request. -/
def injectCsrf (hs : List (String × String)) (requireCsrf : Bool)
    (method : String) (cookie : Option String) : List (String × String) :=
  let methodU := jsToUpper method
  let isUns := isUnsafeMethod (some methodU)
  let needCsrf := requireCsrf || isUns
  if needCsrf = true then
    (csrfHeaderFor cookie (some methodU)).foldl
      (fun acc kv => setHeader acc kv.1 kv.2) hs
  else hs

/-- Parsed error payload plus response metadata for one HTTP response, as
consumed by request in http.ts. The code, message and details fields are the
result of safeParseError on the response body; requestId is the result of
reqId (the x-request-id header). -/
structure HttpResp where
  status : Nat
  code : Option String
  message : Option String
  details : Option String
  requestId : Option String
deriving DecidableEq, Repr

/-- Response.ok of the fetch API: status in the 2xx range. -/
def resOk (r : HttpResp) : Bool :=
  decide (200 ≤ r.status) && decide (r.status < 300)

/-- The ApiHttpError thrown by http.ts, with the fields its constructor
stores: status, code, message, details, requestId. -/
structure ApiHttpError where
  status : Nat
  code : Option String
  message : Option String
  details : Option String
  requestId : Option String
deriving DecidableEq, Repr

/-- Builds the ApiHttpError request throws for a response, exactly as
`new ApiHttpError(res.status, code, message, details, reqId(res))`. -/
def mkError (r : HttpResp) : ApiHttpError :=
  ⟨r.status, r.code, r.message, r.details, r.requestId⟩

/-- EV_CODES set from http.ts. -/
def EV_CODES : List String := ["EV_OUTDATED", "EV_EXPIRED"]

/-- Missing payload code treated as empty string, as in
`(code || "").toUpperCase()`. -/
def orEmpty : Option String → String
  | none => ""
  | some s => s

/-- The stale-entitlement check of request in http.ts:
`EV_CODES.has((code || "").toUpperCase())`. -/
def evClass (code : Option String) : Bool :=
  EV_CODES.contains (jsToUpper (orEmpty code))

/-- Environment of one request call: the response the server gives to the
k-th transmission of the original request, and whether POST /auth/refresh
(ensureRefresh) succeeds. -/
structure Env where
  responses : Nat → HttpResp
  refreshOk : Bool

/-- Result of a request call: resolved with the body of attempt k, or
rejected with a typed error. -/
inductive ReqOutcome where
  | success (attempt : Nat)
  | failure (e : ApiHttpError)
deriving DecidableEq, Repr

/-- Observable side effects of one request call: how many times the original
request was transmitted and how many times ensureRefresh was invoked. -/
structure Trace where
  fetches : Nat
  refreshes : Nat
deriving DecidableEq, Repr

/-- The recursive call `request(input, {...options, __retry: true})` in
http.ts line 234. With __retry set, the `!options.__retry` conjunct of the
refresh branch is false, so this call either resolves on a 2xx or throws the
typed error; it can never refresh or recurse again. It transmits the original
request a second time, so it reads the response at index 1. -/
def requestRetry (env : Env) : ReqOutcome × Trace :=
  let r := env.responses 1
  if resOk r = true then (ReqOutcome.success 1, ⟨1, 0⟩)
  else (ReqOutcome.failure (mkError r), ⟨1, 0⟩)

/-- request from http.ts (lines 171-243) for an initial call (callers never
set __retry). On a 2xx it resolves. On a 401 whose payload code is in
EV_CODES, unless noAutoRefresh is set, it awaits ensureRefresh and retries
once; the try/catch around both the refresh and the retry rethrows the
ORIGINAL 401 error context if either fails (lines 231-238). Any other
non-2xx response throws the typed error immediately. -/
def request (env : Env) (noAuto : Bool) : ReqOutcome × Trace :=
  let r := env.responses 0
  if resOk r = true then (ReqOutcome.success 0, ⟨1, 0⟩)
  else
    if r.status = 401 ∧ evClass r.code = true ∧ noAuto = false then
      if env.refreshOk = true then
        match requestRetry env with
        | (ReqOutcome.success k, t) =>
            (ReqOutcome.success k, ⟨1 + t.fetches, 1 + t.refreshes⟩)
        | (ReqOutcome.failure _, t) =>
            (ReqOutcome.failure (mkError r), ⟨1 + t.fetches, 1 + t.refreshes⟩)
      else
        (ReqOutcome.failure (mkError r), ⟨1, 1⟩)
    else
      (ReqOutcome.failure (mkError r), ⟨1, 0⟩)

/- ===================================================================
   Part 3: single-flight refresh (ensureRefresh, http.ts lines 94-139)
   =================================================================== -/

/-- Module state of http.ts around ensureRefresh: the shared refreshPromise
variable (identified by a promise id when in flight), a counter to mint fresh
promise ids, and the number of underlying POST /auth/refresh transmissions
issued so far. -/
structure SFState where
  refreshPromise : Option Nat
  nextId : Nat
  fetchCount : Nat
deriving DecidableEq, Repr

/-- ensureRefresh from http.ts: `if (refreshPromise) return refreshPromise;`
otherwise it stores a new promise and starts one underlying fetch. The body
up to the first await runs atomically on the single-threaded event loop, so
each concurrent caller executes this step as one transition. The in-flight
promise is cleared only when the refresh settles, which happens after every
caller modelled here has arrived. -/
def ensureRefresh (st : SFState) : SFState × Nat :=
  match st.refreshPromise with
  | some p => (st, p)
  | none => (⟨some st.nextId, st.nextId + 1, st.fetchCount + 1⟩, st.nextId)

/-- n concurrent callers reacting to a 401 EV response, each invoking
ensureRefresh before the in-flight refresh settles; returns the final state
and the promise each caller awaits. -/
def runCallers : Nat → SFState → SFState × List Nat
  | 0, st => (st, [])
  | n + 1, st =>
      let s1 := ensureRefresh st
      let s2 := runCallers n s1.1
      (s2.1, s1.2 :: s2.2)

/- ===================================================================
   Part 4: src/lib/acl.ts
   =================================================================== -/

/-- One declared ui_resources entry: `{ id: string; requires?: string[] | null }`.
A missing or null requires field is none. -/
structure UIEntry where
  id : String
  requires : Option (List String)
deriving DecidableEq, Repr

/-- The pages/actions container of a me-context payload; each list may be
missing. -/
structure UIRes where
  pages : Option (List UIEntry)
  actions : Option (List UIEntry)
deriving DecidableEq, Repr

/-- MeLike from acl.ts: the loose shape both gate implementations read.
permissions may be given directly or nested under auth; ui resources may be
given in snake_case or camelCase. -/
structure Me where
  permissions : Option (List String)
  authPermissions : Option (List String)
  ui_resources : Option UIRes
  uiResources : Option UIRes
deriving DecidableEq, Repr

/-- JS Set insertion followed by Array.from: de-duplication keeping the first
occurrence of each element. -/
def jsSetDedup (l : List String) : List String :=
  l.foldl (fun acc x => if x ∈ acc then acc else acc ++ [x]) []

/-- getEffectivePermissions from acl.ts: direct permissions, else the
auth-nested fallback, else empty; then blank-trimmed strings are dropped and
the result de-duplicated via a Set. -/
def getEffectivePermissions (me : Option Me) : List String :=
  match me with
  | none => []
  | some m =>
      let perms :=
        match m.permissions with
        | some direct => direct
        | none =>
            match m.authPermissions with
            | some nested => nested
            | none => []
      jsSetDedup (perms.filter (fun p => jsTrim p ≠ ""))

/-- normalizeRequires from acl.ts: null/missing means no requirements; an
array is trimmed and blank entries dropped, and an empty cleaned array also
means no requirements. -/
def normalizeRequires : Option (List String) → Option (List String)
  | none => none
  | some req =>
      let cleaned := (req.map (fun x => jsTrim x)).filter (fun x => x ≠ "")
      if cleaned = [] then none else some cleaned

/-- The declared pages list the code reads:
`(me?.ui_resources?.pages ?? me?.uiResources?.pages) ?? []`. -/
def rawPages (me : Option Me) : List UIEntry :=
  match me with
  | none => []
  | some m =>
      match m.ui_resources.bind (fun r => r.pages) with
      | some ps => ps
      | none =>
          match m.uiResources.bind (fun r => r.pages) with
          | some ps => ps
          | none => []

/-- The declared actions list the code reads:
`(me?.ui_resources?.actions ?? me?.uiResources?.actions) ?? []`. -/
def rawActions (me : Option Me) : List UIEntry :=
  match me with
  | none => []
  | some m =>
      match m.ui_resources.bind (fun r => r.actions) with
      | some as_ => as_
      | none =>
          match m.uiResources.bind (fun r => r.actions) with
          | some as_ => as_
          | none => []

/-- getUIPages from acl.ts: the declared pages list, keeping entries whose id
does not trim to blank, with requires normalized. -/
def getUIPages (me : Option Me) : List UIEntry :=
  ((rawPages me).filter (fun p => jsTrim p.id ≠ "")).map
    (fun p => ⟨p.id, normalizeRequires p.requires⟩)

/-- getUIActions from acl.ts, same shape as getUIPages over the actions
lists. -/
def getUIActions (me : Option Me) : List UIEntry :=
  ((rawActions me).filter (fun a => jsTrim a.id ≠ "")).map
    (fun a => ⟨a.id, normalizeRequires a.requires⟩)

/-- hasPerm from acl.ts: `if (!perm) return false; return have.includes(perm)`. -/
def hasPerm (hv : List String) (perm : String) : Bool :=
  if perm = "" then false else hv.contains perm

/-- requireAll from acl.ts: empty or missing need returns true, otherwise
every needed permission must be in the have list. -/
def requireAll (hv : List String) (need : Option (List String)) : Bool :=
  match need with
  | none => true
  | some l => if l = [] then true else l.all (fun p => hv.contains p)

/-- requireAny from acl.ts: empty or missing need returns true, otherwise at
least one needed permission must be in the have list. -/
def requireAny (hv : List String) (need : Option (List String)) : Bool :=
  match need with
  | none => true
  | some l => if l = [] then true else l.any (fun p => hv.contains p)

/-- allowPage from acl.ts: falsy page id denies; a page id not found among
the (filtered) declared pages denies; otherwise requireAll over the effective
permissions and the normalized requires of the first matching entry. -/
def allowPage (me : Option Me) (pageId : String) : Bool :=
  if pageId = "" then false
  else
    match (getUIPages me).find? (fun p => p.id = pageId) with
    | none => false
    | some found => requireAll (getEffectivePermissions me) found.requires

/-- allowAction from acl.ts, same shape as allowPage over actions. -/
def allowAction (me : Option Me) (actionId : String) : Bool :=
  if actionId = "" then false
  else
    match (getUIActions me).find? (fun a => a.id = actionId) with
    | none => false
    | some found => requireAll (getEffectivePermissions me) found.requires

/- ===================================================================
   Part 5: src/context/MeContext.tsx (second gate implementation)
   =================================================================== -/

/-- asSet from MeContext.tsx: `new Set((arr ?? []).map(s => s.trim())
.filter(Boolean))`, modelled as the underlying element list (Set membership
is list membership). -/
def asSet (arr : Option (List String)) : List String :=
  ((arr.getD []).map (fun s => jsTrim s)).filter (fun s => s ≠ "")

/-- requiresAllowed from MeContext.tsx: no requires (missing, null, or an
empty array) is allowed; otherwise every code must be in the granted set
(codes are NOT trimmed here). -/
def requiresAllowed (requires : Option (List String))
    (granted : List String) : Bool :=
  match requires with
  | none => true
  | some l => if l = [] then true else l.all (fun code => granted.contains code)

/-- indexById from MeContext.tsx: a JS Map built by forEach and map.set,
keyed by truthy ids; modelled as an association list where set prepends, so
the last set for a key wins on lookup. -/
def indexById (items : List UIEntry) : List (String × UIEntry) :=
  items.foldl (fun m it => if it.id = "" then m else (it.id, it) :: m) []

/-- Map.get on the indexById model. -/
def mapGet (m : List (String × UIEntry)) (k : String) : Option UIEntry :=
  (m.find? (fun kv => kv.1 = k)).map (fun kv => kv.2)

/-- The granted permission set the MeContext provider derives:
`asSet(me?.permissions)`. -/
def meGranted (me : Option Me) : List String :=
  asSet (me.bind (fun m => m.permissions))

/-- has from MeContext.tsx: granted.has(perm). -/
def meHas (me : Option Me) (perm : String) : Bool :=
  (meGranted me).contains perm

/-- hasAll from MeContext.tsx: perms.every(p => granted.has(p)). -/
def meHasAll (me : Option Me) (perms : List String) : Bool :=
  perms.all (fun p => (meGranted me).contains p)

/-- hasAny from MeContext.tsx: perms.some(p => granted.has(p)); false on the
empty list. -/
def meHasAny (me : Option Me) (perms : List String) : Bool :=
  perms.any (fun p => (meGranted me).contains p)

/-- The pages list the provider indexes: `me?.ui_resources?.pages ?? []`
(no camelCase fallback in MeContext.tsx). -/
def mePages (me : Option Me) : List UIEntry :=
  ((me.bind (fun m => m.ui_resources)).bind (fun r => r.pages)).getD []

/-- The actions list the provider indexes: `me?.ui_resources?.actions ?? []`. -/
def meActions (me : Option Me) : List UIEntry :=
  ((me.bind (fun m => m.ui_resources)).bind (fun r => r.actions)).getD []

/-- allowPage from MeContext.tsx: `pagesIdx.get(pageId)`, undeclared ids are
not visible, otherwise requiresAllowed over the raw requires field. -/
def meAllowPage (me : Option Me) (pageId : String) : Bool :=
  match mapGet (indexById (mePages me)) pageId with
  | none => false
  | some d => requiresAllowed d.requires (meGranted me)

/-- allowAction from MeContext.tsx, same shape over
`me?.ui_resources?.actions ?? []`. -/
def meAllowAction (me : Option Me) (actionId : String) : Bool :=
  match mapGet (indexById (meActions me)) actionId with
  | none => false
  | some d => requiresAllowed d.requires (meGranted me)

/- ===================================================================
   Part 6: src/components/access/Acl.tsx (two gate implementations)
   =================================================================== -/

/-- The perm prop of the first Acl component: a single code, a list of codes,
or absent. -/
inductive PermArg where
  | noPerm
  | strP (s : String)
  | arrP (l : List String)
deriving DecidableEq, Repr

/-- Mode prop shared by both gates: "all" (default) or "any". -/
inductive Mode where
  | all
  | any
deriving DecidableEq, Repr

/-- evaluateAccess from the first Acl component (Acl.tsx lines 70-97), with
the api argument bound to the MeContext helpers the component pulls from
useMe. All provided checks must pass; with no checks provided it returns
true. A string perm uses has; a nonempty array uses hasAny for mode any and
hasAll otherwise; an empty array is skipped. Page and action props are JS
truthiness tested, so the empty string counts as absent. -/
def evaluateAccess (me : Option Me) (perm : PermArg)
    (page action : Option String) (mode : Mode) : Bool :=
  let permOk :=
    match perm with
    | PermArg.strP s => meHas me s
    | PermArg.arrP l =>
        if l = [] then true
        else match mode with
          | Mode.any => meHasAny me l
          | Mode.all => meHasAll me l
    | PermArg.noPerm => true
  if permOk = false then false
  else
    if (orEmpty page) ≠ "" ∧ meAllowPage me (orEmpty page) = false then false
    else
      if (orEmpty action) ≠ "" ∧ meAllowAction me (orEmpty action) = false then
        false
      else true

/-- Allow decision of the first Acl component once loading is done: a null
me-context renders the fallback (deny), otherwise evaluateAccess decides. -/
def firstAclAllowed (me : Option Me) (perm : PermArg)
    (page action : Option String) (mode : Mode) : Bool :=
  match me with
  | none => false
  | some _ => evaluateAccess me perm page action mode

/-- decide from the second Acl component (Acl.tsx lines 300-326): null
context denies; a truthy pageId is decided by allowPage alone; else a truthy
actionId by allowAction alone; else a nonempty requires list by requireAny or
requireAll over getEffectivePermissions; else deny (no-rules fail-safe). -/
def decideGate (me : Option Me) (pageId actionId : Option String)
    (requires : Option (List String)) (mode : Mode) : Bool :=
  match me with
  | none => false
  | some _ =>
      if (orEmpty pageId) ≠ "" then allowPage me (orEmpty pageId)
      else
        if (orEmpty actionId) ≠ "" then allowAction me (orEmpty actionId)
        else
          match requires with
          | some l =>
              if l ≠ [] then
                let hv := getEffectivePermissions me
                match mode with
                | Mode.any => requireAny hv (some l)
                | Mode.all => requireAll hv (some l)
              else false
          | none => false

/- ===================================================================
   Part 7: backend guard chain.
   Modelled from the spec: the guard orchestrator (auth/deps.py,
   rbac/permissions.py) is not part of the source tree; only the
   Backend Guard Rules document and the spec (section 4.7) describe it.
   =================================================================== -/

/-- Modelled from the spec: verified JWT claims of a session token (subject,
tenant id, entitlement version, token id). -/
structure Claims where
  sub : String
  tid : String
  ev : Nat
  jti : String
deriving DecidableEq, Repr

/-- Modelled from the spec: tenant membership record with role names, ABAC
attributes and an active flag. -/
structure MembershipRec where
  roles : List String
  rooms : List String
  guardianOf : List String
  active : Bool
deriving DecidableEq, Repr

/-- Modelled from the spec: server-side stores the guard consults: the jti
blocklist, the EV store keyed by (tenant, user), membership lookup, and the
role name to permission list mapping per tenant. -/
structure ServerState where
  jtiBlock : List String
  evStore : String → String → Nat
  membership : String → String → Option MembershipRec
  rolePerms : String → String → List String

/-- Modelled from the spec: required permissions a protected route declares,
with an all-of or any-of mode. -/
structure RouteReq where
  required : List String
  mode : Mode

/-- Modelled from the spec: an inbound request: the extracted token (if any),
whether its signature verifies, and client-supplied tenant fields in body and
query which the guard must never consult. -/
structure GuardRequest where
  token : Option Claims
  sigValid : Bool
  bodyTenantId : Option String
  queryTenantId : Option String

/-- Modelled from the spec: authorization context attached for the handler:
tenant id and user id from the verified claims, the flattened permission set,
and ABAC scope attributes. -/
structure AuthzContext where
  tenantId : String
  userId : String
  permissions : List String
  rooms : List String
  guardianOf : List String
deriving DecidableEq, Repr

/-- Modelled from the spec: terminal failure states of the guard chain, each
mapped to an externally visible error code. evOutdated is the 401 EV_OUTDATED
StalePermissions class. -/
inductive GuardError where
  | expired
  | invalidToken
  | evOutdated
  | permissionDenied
deriving DecidableEq, Repr

/-- Modelled from the spec: guard verdict. -/
inductive GuardResult where
  | authorized (ctx : AuthzContext)
  | failed (e : GuardError)
deriving DecidableEq, Repr

/-- Modelled from the spec: flatten the permission lists of every role of the
membership into one set (union semantics). -/
def flattenPerms (st : ServerState) (tid : String)
    (m : MembershipRec) : List String :=
  m.roles.foldl (fun acc r => acc ++ st.rolePerms tid r) []

/-- Modelled from the spec: RBAC check of the declared route requirement
against the flattened permission set. -/
def rbacOk (perms : List String) (route : RouteReq) : Bool :=
  match route.mode with
  | Mode.all => route.required.all (fun p => perms.contains p)
  | Mode.any =>
      if route.required = [] then true
      else route.required.any (fun p => perms.contains p)

/-- Modelled from the spec: the guard chain of section 4.7 and the Backend
Guard Rules document, run in order: extract token, verify, revocation check,
EV freshness, membership and roles, RBAC, then attach the authorization
context with the tenant id taken from the verified claims (never from the
client-supplied body or query fields). -/
def guardChain (req : GuardRequest) (st : ServerState) (route : RouteReq) :
    GuardResult :=
  match req.token with
  | none => GuardResult.failed GuardError.expired
  | some c =>
      if req.sigValid = false then GuardResult.failed GuardError.invalidToken
      else
        if st.jtiBlock.contains c.jti then GuardResult.failed GuardError.expired
        else
          if c.ev < st.evStore c.tid c.sub then
            GuardResult.failed GuardError.evOutdated
          else
            match st.membership c.tid c.sub with
            | none => GuardResult.failed GuardError.permissionDenied
            | some m =>
                if m.active = false then
                  GuardResult.failed GuardError.permissionDenied
                else
                  let perms := flattenPerms st c.tid m
                  if rbacOk perms route = false then
                    GuardResult.failed GuardError.permissionDenied
                  else
                    GuardResult.authorized
                      ⟨c.tid, c.sub, perms, m.rooms, m.guardianOf⟩

/- ===================================================================
   Theorems
   =================================================================== -/

/-- Claim C1: on an HTTP 401 response in the stale-entitlement class
(EV_OUTDATED/EV_EXPIRED payload code), with automatic refresh not disabled,
request performs exactly one refresh and retries the original request exactly
once (trace fetches = 2, refreshes = 1); if the retried request fails the
error is propagated with no further refresh or retry, and if the refresh
itself fails the error is propagated after a single transmission
(fetches = 1, refreshes = 1). No looping occurs in any case. -/
theorem request_ev401_refresh_retry_once (env : Env)
    (h401 : (env.responses 0).status = 401)
    (hev : evClass (env.responses 0).code = true) :
    (env.refreshOk = true →
      request env false =
        (if resOk (env.responses 1) = true
         then (ReqOutcome.success 1, ⟨2, 1⟩)
         else (ReqOutcome.failure (mkError (env.responses 0)), ⟨2, 1⟩))) ∧
    (env.refreshOk = false →
      request env false =
        (ReqOutcome.failure (mkError (env.responses 0)), ⟨1, 1⟩)) := by
  have hok : resOk (env.responses 0) = false := by
    simp only [resOk, h401]
    decide
  constructor
  · intro hr
    by_cases hi : resOk (env.responses 1) = true
    · simp [request, requestRetry, hok, h401, hev, hr, hi]
    · simp [request, requestRetry, hok, h401, hev, hr, hi]
  · intro hr
    simp [request, hok, h401, hev, hr]

/-- A stale-entitlement 401 response. -/
def resp401ev : HttpResp :=
  ⟨401, some ("EV_OUTDATED"), some ("stale"), none, some ("rid-0")⟩

/-- A success response. -/
def resp200 : HttpResp := ⟨200, none, none, none, none⟩

/-- Environment where the first transmission gets a stale 401, the refresh
succeeds, and the retry succeeds. -/
def envC1 : Env :=
  ⟨fun k => match k with | 0 => resp401ev | _ => resp200, true⟩

/-- Witness for request_ev401_refresh_retry_once at a concrete environment. -/
theorem request_ev401_refresh_retry_once_witness :
    (envC1.responses 0).status = 401 ∧
    evClass (envC1.responses 0).code = true ∧
    envC1.refreshOk = true ∧
    request envC1 false = (ReqOutcome.success 1, ⟨2, 1⟩) := by
  refine ⟨rfl, by decide, rfl, ?_⟩
  have h := (request_ev401_refresh_retry_once envC1 rfl (by decide)).1 rfl
  exact h.trans (by decide)

/-- Claim C7: any non-2xx response outside the stale-entitlement 401 class
makes request throw the typed error carrying the status, parsed code,
message, details and request id of that response, with no refresh and no
retry (trace fetches = 1, refreshes = 0), for any noAutoRefresh setting. -/
theorem request_non_ev_error_typed_no_retry (env : Env) (noAuto : Bool)
    (hfail : resOk (env.responses 0) = false)
    (hnotev : ¬((env.responses 0).status = 401 ∧
                evClass (env.responses 0).code = true)) :
    request env noAuto =
      (ReqOutcome.failure
        ⟨(env.responses 0).status, (env.responses 0).code,
         (env.responses 0).message, (env.responses 0).details,
         (env.responses 0).requestId⟩, ⟨1, 0⟩) := by
  have h2 : ¬((env.responses 0).status = 401 ∧
      evClass (env.responses 0).code = true ∧ noAuto = false) :=
    fun h => hnotev ⟨h.1, h.2.1⟩
  simp [request, hfail, h2, mkError]

/-- A 403 permission-denied response. -/
def resp403 : HttpResp :=
  ⟨403, some ("PERMISSION_DENIED"), some ("denied"), none, some ("rid-1")⟩

/-- Environment where every transmission gets a 403. -/
def envC7 : Env := ⟨fun _ => resp403, true⟩

/-- Witness for request_non_ev_error_typed_no_retry at a concrete 403. -/
theorem request_non_ev_error_typed_no_retry_witness :
    resOk (envC7.responses 0) = false ∧
    ¬((envC7.responses 0).status = 401 ∧
      evClass (envC7.responses 0).code = true) ∧
    request envC7 false =
      (ReqOutcome.failure
        ⟨403, some ("PERMISSION_DENIED"), some ("denied"), none,
         some ("rid-1")⟩, ⟨1, 0⟩) := by
  refine ⟨by decide, by decide, ?_⟩
  exact (request_non_ev_error_typed_no_retry envC7 false (by decide)
    (by decide)).trans (by decide)

/-- Once a refresh is in flight, every further ensureRefresh caller gets the
same promise and the state is unchanged. -/
theorem runCallers_inflight (n : Nat) (st : SFState) (p : Nat)
    (h : st.refreshPromise = some p) :
    runCallers n st = (st, List.replicate n p) := by
  induction n with
  | zero => simp [runCallers]
  | succ n ih => simp [runCallers, ensureRefresh, h, ih, List.replicate]

/-- Claim C3: n concurrent callers (n at least 1) that all need a refresh
while none is in flight cause exactly one underlying POST /auth/refresh
transmission, and every caller awaits the same single in-flight promise. -/
theorem ensureRefresh_single_flight (n : Nat) (st : SFState)
    (hidle : st.refreshPromise = none) (hn : 1 ≤ n) :
    (runCallers n st).1.fetchCount = st.fetchCount + 1 ∧
    (runCallers n st).2 = List.replicate n st.nextId := by
  cases n with
  | zero => omega
  | succ n =>
      have hstep :
          runCallers n ⟨some st.nextId, st.nextId + 1, st.fetchCount + 1⟩ =
            (⟨some st.nextId, st.nextId + 1, st.fetchCount + 1⟩,
              List.replicate n st.nextId) :=
        runCallers_inflight n _ st.nextId rfl
      simp [runCallers, ensureRefresh, hidle, hstep, List.replicate]

/-- Witness for ensureRefresh_single_flight: three concurrent callers from
the idle state issue one fetch and all await promise 0. -/
theorem ensureRefresh_single_flight_witness :
    (runCallers 3 ⟨none, 0, 0⟩).1.fetchCount = 0 + 1 ∧
    (runCallers 3 ⟨none, 0, 0⟩).2 = List.replicate 3 0 := by
  exact ensureRefresh_single_flight 3 ⟨none, 0, 0⟩ rfl (by decide)

/-- Setting a header makes it readable with exactly that value. -/
theorem getHeader_setHeader (hs : List (String × String)) (k v : String) :
    getHeader (setHeader hs k v) k = some v := by
  unfold getHeader setHeader
  rw [List.find?_append]
  have hnone : (hs.filter (fun h => h.1 ≠ k)).find? (fun h => h.1 = k)
      = none := by
    rw [List.find?_eq_none]
    intro x hx
    have hxmem := List.of_mem_filter hx
    simp only [decide_eq_true_eq] at hxmem
    simp [hxmem]
  simp [hnone]

/-- Claim C6: for any caller headers not already carrying X-CSRF, any
requireCsrf setting, any method and any cookie state, the injected headers
carry X-CSRF iff the method is unsafe (POST/PUT/PATCH/DELETE after
uppercasing) and the kydo_csrf cookie is present, and then the header value
equals the cookie value; safe methods such as GET never carry it. -/
theorem csrf_header_iff_unsafe_and_cookie (hs : List (String × String))
    (rc : Bool) (method : String) (cookie : Option String)
    (hno : getHeader hs CSRF_HEADER = none) :
    getHeader (injectCsrf hs rc method cookie) CSRF_HEADER =
      (if isUnsafeMethod (some (jsToUpper method)) = true then cookie
       else none) := by
  unfold injectCsrf csrfHeaderFor buildCsrfHeader getCsrfToken
  by_cases hu : isUnsafeMethod (some (jsToUpper method)) = true
  · cases cookie with
    | none => simp [hu, hno]
    | some t => simp [hu, getHeader_setHeader]
  · have hu2 : isUnsafeMethod (some (jsToUpper method)) = false :=
      Bool.not_eq_true _ ▸ (by simpa using hu)
    cases rc <;> simp [hu2, hno]

/-- Witness for csrf_header_iff_unsafe_and_cookie: a POST with the cookie
present carries X-CSRF with the cookie value; a GET with the same cookie
carries no X-CSRF. -/
theorem csrf_header_iff_unsafe_and_cookie_witness :
    getHeader (injectCsrf [] false ("POST") (some ("tok"))) CSRF_HEADER
      = some ("tok") ∧
    getHeader (injectCsrf [] false ("GET") (some ("tok"))) CSRF_HEADER
      = none := by
  constructor
  · exact (csrf_header_iff_unsafe_and_cookie [] false ("POST") (some ("tok"))
      rfl).trans (by decide)
  · exact (csrf_header_iff_unsafe_and_cookie [] false ("GET") (some ("tok"))
      rfl).trans (by decide)

/-- Claim C2 (modelled from the spec, since the backend guard code is not in
the tree): any request carrying a verified, unrevoked token whose entitlement
version is strictly below the server EV for its (tenant, user) pair fails
with the StalePermissions class (401 EV_OUTDATED), for every membership,
role-permission configuration and route requirement — i.e. regardless of the
token holder permission content. -/
theorem guard_ev_stale_regardless_of_permissions (req : GuardRequest)
    (st : ServerState) (route : RouteReq) (c : Claims)
    (htok : req.token = some c) (hsig : req.sigValid = true)
    (hrev : c.jti ∉ st.jtiBlock)
    (hev : c.ev < st.evStore c.tid c.sub) :
    guardChain req st route = GuardResult.failed GuardError.evOutdated := by
  simp [guardChain, htok, hsig, hrev, hev]

/-- Concrete stale-token scenario: server EV is 6, token carries EV 5. -/
def stC2 : ServerState :=
  ⟨[], fun _ _ => 6, fun _ _ => some ⟨["teacher"], ["room-a"], [], true⟩,
   fun _ _ => ["students.view"]⟩

/-- A verified request whose token carries EV 5. -/
def reqC2 : GuardRequest :=
  ⟨some ⟨("u1"), ("t1"), 5, ("j1")⟩, true, none, none⟩

/-- Witness for guard_ev_stale_regardless_of_permissions. -/
theorem guard_ev_stale_witness :
    reqC2.token = some ⟨("u1"), ("t1"), 5, ("j1")⟩ ∧
    (5 : Nat) < stC2.evStore ("t1") ("u1") ∧
    guardChain reqC2 stC2 ⟨["students.view"], Mode.all⟩ =
      GuardResult.failed GuardError.evOutdated := by
  refine ⟨rfl, by decide, ?_⟩
  exact guard_ev_stale_regardless_of_permissions reqC2 stC2
    ⟨["students.view"], Mode.all⟩ ⟨("u1"), ("t1"), 5, ("j1")⟩
    rfl rfl (by decide) (by decide)

/-- Claim C4 (modelled from the spec, since the backend guard code is not in
the tree): the guard verdict is identical for any two requests differing
only in client-supplied tenant fields (body or query), and whenever the
guard authorizes, the tenant id of the attached authorization context equals
the tenant id of the verified session token. -/
theorem guard_tenant_from_token_only (req : GuardRequest) (st : ServerState)
    (route : RouteReq) (b1 b2 q1 q2 : Option String) :
    (guardChain ⟨req.token, req.sigValid, b1, q1⟩ st route =
      guardChain ⟨req.token, req.sigValid, b2, q2⟩ st route) ∧
    (∀ c ctx, req.token = some c →
      guardChain req st route = GuardResult.authorized ctx →
      ctx.tenantId = c.tid) := by
  constructor
  · rfl
  · intro c ctx htok hres
    simp only [guardChain, htok] at hres
    repeat' split at hres
    all_goals cases hres
    rfl

/-- Fresh-token server state for the C4 witness scenario. -/
def stC4 : ServerState :=
  ⟨[], fun _ _ => 5, fun _ _ => some ⟨["teacher"], ["room-a"], [], true⟩,
   fun _ _ => ["students.view"]⟩

/-- A verified fresh token for tenant t1. -/
def cC4 : Claims := ⟨("u1"), ("t1"), 5, ("j1")⟩

/-- Route requiring students.view with all-of mode. -/
def routeC4 : RouteReq := ⟨["students.view"], Mode.all⟩

/-- Witness for guard_tenant_from_token_only: two requests differing only in
client-supplied tenant fields get the same verdict, and a concrete
authorized run yields the token tenant id. -/
theorem guard_tenant_from_token_only_witness :
    (guardChain ⟨some cC4, true, some ("spoof-a"), none⟩ stC4 routeC4 =
      guardChain ⟨some cC4, true, some ("spoof-b"), some ("q")⟩ stC4
        routeC4) ∧
    AuthzContext.tenantId
      ⟨("t1"), ("u1"), ["students.view"], ["room-a"], []⟩ = cC4.tid := by
  constructor
  · exact (guard_tenant_from_token_only ⟨some cC4, true, none, none⟩ stC4
      routeC4 (some ("spoof-a")) (some ("spoof-b")) none (some ("q"))).1
  · exact (guard_tenant_from_token_only ⟨some cC4, true, none, none⟩ stC4
      routeC4 none none none none).2 cC4
      ⟨("t1"), ("u1"), ["students.view"], ["room-a"], []⟩ rfl (by decide)

/-- Claim C5 counterexample: the decide route guard invoked with an empty
requires list (mode all, no page or action) denies, even though the all-of
check succeeds on that input, so the guard does NOT deny iff the all-of
check fails. -/
theorem decide_empty_requires_denies_counterexample :
    decideGate (some ⟨some ["a"], none, none, none⟩) none none (some [])
        Mode.all = false ∧
    requireAll
      (getEffectivePermissions (some ⟨some ["a"], none, none, none⟩))
      (some []) = true := by
  decide

/-- Claim C5 as amended: requireAll succeeds iff every needed permission is
held; requireAny on a NONEMPTY need succeeds iff some needed permission is
held; empty or missing need makes both checks succeed; and the decide route
guard with a nonempty requires list (and no page or action) denies iff the
check selected by the declared mode fails. With an empty or missing requires
list decide instead fails safe and denies. -/
theorem requireAll_requireAny_decide_spec :
    (∀ hv need, requireAll hv need = true ↔
      ∀ p ∈ need.getD [], hv.contains p = true) ∧
    (∀ (hv l : List String), l ≠ [] →
      (requireAny hv (some l) = true ↔ ∃ p ∈ l, hv.contains p = true)) ∧
    (∀ hv : List String, requireAll hv none = true ∧
      requireAny hv none = true ∧ requireAll hv (some []) = true ∧
      requireAny hv (some []) = true) ∧
    (∀ me l mode, l ≠ [] →
      (decideGate me none none (some l) mode = false ↔
        (match mode with
         | Mode.all =>
             requireAll (getEffectivePermissions me) (some l) = false
         | Mode.any =>
             requireAny (getEffectivePermissions me) (some l) = false))) := by
  refine ⟨?_, ?_, ?_, ?_⟩
  · intro hv need
    cases need with
    | none => simp [requireAll]
    | some l =>
        by_cases hl : l = []
        · subst hl; simp [requireAll]
        · simp [requireAll, hl, List.all_eq_true]
  · intro hv l hl
    simp [requireAny, hl, List.any_eq_true]
  · intro hv
    refine ⟨rfl, rfl, by simp [requireAll], by simp [requireAny]⟩
  · intro me l mode hl
    cases me with
    | none =>
        cases l with
        | nil => simp at hl
        | cons a as =>
            cases mode <;>
              simp [decideGate, requireAll, requireAny,
                getEffectivePermissions, List.all_cons, List.any_cons]
    | some m =>
        cases mode <;> simp [decideGate, orEmpty, hl]

/-- Witness for requireAll_requireAny_decide_spec at concrete inputs. -/
theorem requireAll_requireAny_decide_spec_witness :
    (requireAll ["a", "b"] (some ["a"]) = true ↔
      ∀ p ∈ (some ["a"] : Option (List String)).getD [],
        List.contains ["a", "b"] p = true) ∧
    (requireAny ["a"] (some ["a", "c"]) = true ↔
      ∃ p ∈ ["a", "c"], List.contains ["a"] p = true) ∧
    (requireAll ["x"] none = true ∧ requireAny ["x"] none = true ∧
      requireAll ["x"] (some []) = true ∧
      requireAny ["x"] (some []) = true) ∧
    (decideGate (some ⟨some ["a"], none, none, none⟩) none none
        (some ["b"]) Mode.all = false ↔
      requireAll
        (getEffectivePermissions (some ⟨some ["a"], none, none, none⟩))
        (some ["b"]) = false) := by
  refine ⟨?_, ?_, ?_, ?_⟩
  · exact requireAll_requireAny_decide_spec.1 ["a", "b"] (some ["a"])
  · exact requireAll_requireAny_decide_spec.2.1 ["a"] ["a", "c"] (by decide)
  · exact requireAll_requireAny_decide_spec.2.2.1 ["x"]
  · exact requireAll_requireAny_decide_spec.2.2.2
      (some ⟨some ["a"], none, none, none⟩) ["b"] Mode.all (by decide)

/- ===================================================================
   Helper lemmas for the gate-equivalence claims
   =================================================================== -/

/-- Pointwise-equal Bool predicates give equal List.all results. -/
theorem list_all_congr {α : Type} (l : List α) (f g : α → Bool)
    (h : ∀ x ∈ l, f x = g x) : l.all f = l.all g := by
  induction l with
  | nil => rfl
  | cons a as ih =>
      simp only [List.all_cons, h a (by simp)]
      rw [ih (fun x hx => h x (by simp [hx]))]

/-- Pointwise-equal Bool predicates give equal List.any results. -/
theorem list_any_congr {α : Type} (l : List α) (f g : α → Bool)
    (h : ∀ x ∈ l, f x = g x) : l.any f = l.any g := by
  induction l with
  | nil => rfl
  | cons a as ih =>
      simp only [List.any_cons, h a (by simp)]
      rw [ih (fun x hx => h x (by simp [hx]))]

/-- Membership is preserved by the JS Set de-duplication. -/
theorem mem_jsSetDedup_aux (l : List String) :
    ∀ (acc : List String) (x : String),
      x ∈ l.foldl (fun acc x => if x ∈ acc then acc else acc ++ [x]) acc ↔
        x ∈ acc ∨ x ∈ l := by
  induction l with
  | nil => intro acc x; simp
  | cons a as ih =>
      intro acc x
      by_cases h : a ∈ acc
      · rw [List.foldl_cons, if_pos h, ih]
        constructor
        · intro hx
          rcases hx with h1 | h2
          · exact Or.inl h1
          · exact Or.inr (List.mem_cons_of_mem a h2)
        · intro hx
          rcases hx with h1 | h2
          · exact Or.inl h1
          · rcases List.mem_cons.mp h2 with he | hm
            · exact Or.inl (he ▸ h)
            · exact Or.inr hm
      · rw [List.foldl_cons, if_neg h, ih]
        constructor
        · intro hx
          rcases hx with h1 | h2
          · rcases List.mem_append.mp h1 with ha | hb
            · exact Or.inl ha
            · exact Or.inr
                (List.mem_cons.mpr (Or.inl (List.mem_singleton.mp hb)))
          · exact Or.inr (List.mem_cons_of_mem a h2)
        · intro hx
          rcases hx with h1 | h2
          · exact Or.inl (List.mem_append.mpr (Or.inl h1))
          · rcases List.mem_cons.mp h2 with he | hm
            · exact Or.inl
                (List.mem_append.mpr (Or.inr (List.mem_singleton.mpr he)))
            · exact Or.inr hm

/-- Membership in jsSetDedup equals membership in the original list. -/
theorem mem_jsSetDedup (l : List String) (x : String) :
    x ∈ jsSetDedup l ↔ x ∈ l := by
  unfold jsSetDedup
  rw [mem_jsSetDedup_aux]
  simp

/-- contains is preserved by the JS Set de-duplication. -/
theorem contains_jsSetDedup (l : List String) (x : String) :
    (jsSetDedup l).contains x = l.contains x := by
  rw [Bool.eq_iff_iff, List.elem_iff, List.elem_iff]
  exact mem_jsSetDedup l x

/-- indexById over entries with truthy ids is the reversed association list
of (id, entry) pairs. -/
theorem indexById_eq_aux (ps : List UIEntry) :
    ∀ acc : List (String × UIEntry), (∀ e ∈ ps, e.id ≠ "") →
      ps.foldl (fun m it => if it.id = "" then m else (it.id, it) :: m) acc =
        (ps.map (fun e => (e.id, e))).reverse ++ acc := by
  induction ps with
  | nil => intro acc _; simp
  | cons e es ih =>
      intro acc hid
      have he : e.id ≠ "" := hid e (by simp)
      simp only [List.foldl_cons, he, if_false, List.map_cons,
        List.reverse_cons]
      rw [ih ((e.id, e) :: acc) (fun x hx => hid x (by simp [hx]))]
      simp

/-- find? over a reversed association list with duplicate-free keys equals
find? over the list itself. -/
theorem find?_reverse_nodup (l : List (String × UIEntry)) (k : String)
    (hnd : (l.map Prod.fst).Nodup) :
    l.reverse.find? (fun kv => kv.1 = k) =
      l.find? (fun kv => kv.1 = k) := by
  induction l with
  | nil => rfl
  | cons x xs ih =>
      rw [List.map_cons, List.nodup_cons] at hnd
      by_cases hk : x.1 = k
      · have hxs : xs.find? (fun kv => kv.1 = k) = none := by
          rw [List.find?_eq_none]
          intro y hy hpy
          simp only [decide_eq_true_eq] at hpy
          exact hnd.1 (by
            rw [← hk] at hpy
            rw [← hpy]
            exact List.mem_map_of_mem Prod.fst hy)
        rw [List.reverse_cons, List.find?_append, ih hnd.2, hxs]
        simp [List.find?_cons, hk]
      · have hx1 : (fun kv : String × UIEntry => decide (kv.1 = k)) x
            = false := by simp [hk]
        rw [List.reverse_cons, List.find?_append, ih hnd.2]
        cases hfx : xs.find? (fun kv => kv.1 = k) with
        | some y => simp [List.find?_cons, hk, hfx]
        | none => simp [List.find?_cons, hk, hfx]

/-- Map.get over indexById equals first-match find? when ids are truthy and
duplicate-free. -/
theorem mapGet_indexById (ps : List UIEntry)
    (hid : ∀ e ∈ ps, e.id ≠ "")
    (hnd : (ps.map (fun e => e.id)).Nodup) (k : String) :
    mapGet (indexById ps) k = ps.find? (fun e => e.id = k) := by
  unfold mapGet indexById
  rw [indexById_eq_aux ps [] hid]
  rw [List.append_nil]
  have hkeys : ((ps.map (fun e => (e.id, e))).map Prod.fst).Nodup := by
    rw [List.map_map]
    exact hnd
  rw [find?_reverse_nodup _ k hkeys]
  rw [List.find?_map]
  have hcomp : ((fun kv : String × UIEntry => decide (kv.1 = k)) ∘
      (fun e : UIEntry => (e.id, e))) = (fun e : UIEntry => decide (e.id = k)) :=
    rfl
  rw [hcomp]
  cases ps.find? (fun e : UIEntry => decide (e.id = k)) <;> rfl

/-- A ui entry is clean when its id does not trim to blank and every string
in its requires list is trim-invariant and nonblank. -/
def entryClean (e : UIEntry) : Prop :=
  jsTrim e.id ≠ "" ∧ ∀ s ∈ e.requires.getD [], jsTrim s = s ∧ s ≠ ""

instance (e : UIEntry) : Decidable (entryClean e) := by
  unfold entryClean
  infer_instance

/-- A me-context is in clean DTO shape when it has no auth-nested permission
fallback and no camelCase ui-resource alias, its permission strings are
trim-invariant, and its declared page and action entries are clean with
duplicate-free ids. -/
def dtoClean : Option Me → Prop
  | none => True
  | some m =>
      m.authPermissions = none ∧ m.uiResources = none ∧
      (∀ p ∈ m.permissions.getD [], jsTrim p = p) ∧
      (∀ e ∈ mePages (some m), entryClean e) ∧
      ((mePages (some m)).map (fun e => e.id)).Nodup ∧
      (∀ e ∈ meActions (some m), entryClean e) ∧
      ((meActions (some m)).map (fun e => e.id)).Nodup

instance (me : Option Me) : Decidable (dtoClean me) := by
  cases me <;> unfold dtoClean <;> infer_instance

/-- The effective permission list of acl.ts and the granted set of
MeContext.tsx agree on membership when the context permissions are
trim-invariant and there is no auth-nested fallback. -/
theorem eff_granted_contains (m : Me)
    (hauth : m.authPermissions = none)
    (htrim : ∀ p ∈ m.permissions.getD [], jsTrim p = p) :
    ∀ x, (getEffectivePermissions (some m)).contains x =
      (meGranted (some m)).contains x := by
  intro x
  cases hp : m.permissions with
  | none =>
      simp [getEffectivePermissions, meGranted, asSet, hp, hauth, jsSetDedup]
  | some perms =>
      have htrimp : ∀ p ∈ perms, jsTrim p = p := by
        intro p hmem
        exact htrim p (by simp [hp, hmem])
      have hmap : perms.map (fun s => jsTrim s) = perms := by
        rw [List.map_congr_left (fun s hs => htrimp s hs)]
        exact List.map_id perms
      have hfil : perms.filter (fun p => jsTrim p ≠ "") =
          perms.filter (fun p => p ≠ "") := by
        apply List.filter_congr
        intro p hmem
        rw [htrimp p hmem]
      simp only [getEffectivePermissions, meGranted, asSet, hp, hauth,
        Option.some_bind, Option.getD_some, hmap, hfil]
      exact contains_jsSetDedup _ x

/-- requireAll over normalized requires (acl.ts) agrees with requiresAllowed
over raw requires (MeContext.tsx) for clean requires lists and
membership-equal permission lists. -/
theorem requireAll_norm (hvA hvB : List String) (req : Option (List String))
    (hreq : ∀ s ∈ req.getD [], jsTrim s = s ∧ s ≠ "")
    (hcont : ∀ x, hvA.contains x = hvB.contains x) :
    requireAll hvA (normalizeRequires req) = requiresAllowed req hvB := by
  cases req with
  | none => rfl
  | some l =>
      have hreq2 : ∀ s ∈ l, jsTrim s = s ∧ s ≠ "" := by
        intro s hs
        exact hreq s (by simpa using hs)
      have hmap : l.map (fun x => jsTrim x) = l := by
        rw [List.map_congr_left (fun s hs => (hreq2 s hs).1)]
        exact List.map_id l
      have hfil : l.filter (fun x => x ≠ "") = l := by
        rw [List.filter_eq_self]
        intro s hs
        simpa using (hreq2 s hs).2
      simp only [normalizeRequires, hmap, hfil]
      by_cases hl : l = []
      · subst hl
        simp [requireAll, requiresAllowed]
      · rw [if_neg hl]
        simp only [requireAll, requiresAllowed, if_neg hl]
        exact list_all_congr l _ _ (fun p _ => hcont p)

/-- Under clean DTO shape, allowPage of acl.ts and allowPage of
MeContext.tsx agree. -/
theorem allowPage_equiv (me : Option Me) (h : dtoClean me) (pid : String) :
    allowPage me pid = meAllowPage me pid := by
  cases me with
  | none =>
      by_cases hp : pid = "" <;>
        simp [allowPage, meAllowPage, getUIPages, rawPages, mePages,
          indexById, mapGet, hp]
  | some m =>
      obtain ⟨hauth, hui, htrim, hpg, hpgnd, -, -⟩ := h
      have hraw : rawPages (some m) = mePages (some m) := by
        unfold rawPages mePages
        cases hpp : m.ui_resources.bind (fun r => r.pages) <;>
          simp [hui, hpp]
      have hid : ∀ e ∈ mePages (some m), e.id ≠ "" := by
        intro e he heq
        have h1 := (hpg e he).1
        rw [heq] at h1
        exact h1 (by decide)
      have hfilter : (mePages (some m)).filter (fun p => jsTrim p.id ≠ "") =
          mePages (some m) := by
        rw [List.filter_eq_self]
        intro e he
        simpa using (hpg e he).1
      have hmg := mapGet_indexById (mePages (some m)) hid hpgnd pid
      by_cases hpid : pid = ""
      · subst hpid
        have hnone : (mePages (some m)).find? (fun e => e.id = "") = none := by
          rw [List.find?_eq_none]
          intro e he
          simp [hid e he]
        simp [allowPage, meAllowPage, hmg, hnone]
      · unfold allowPage meAllowPage getUIPages
        rw [if_neg hpid, hmg, hraw, hfilter]
        have hfm : ((mePages (some m)).map
            (fun p => (⟨p.id, normalizeRequires p.requires⟩ : UIEntry))).find?
              (fun p => p.id = pid) =
            ((mePages (some m)).find? (fun e => e.id = pid)).map
              (fun p => (⟨p.id, normalizeRequires p.requires⟩ : UIEntry)) := by
          rw [List.find?_map]
          rfl
        rw [hfm]
        cases hf : (mePages (some m)).find? (fun e => e.id = pid) with
        | none => rfl
        | some e =>
            simp only [Option.map_some']
            exact requireAll_norm _ _ e.requires
              (hpg e (List.mem_of_find?_eq_some hf)).2
              (eff_granted_contains m hauth htrim)

/-- Under clean DTO shape, allowAction of acl.ts and allowAction of
MeContext.tsx agree. -/
theorem allowAction_equiv (me : Option Me) (h : dtoClean me) (aid : String) :
    allowAction me aid = meAllowAction me aid := by
  cases me with
  | none =>
      by_cases hp : aid = "" <;>
        simp [allowAction, meAllowAction, getUIActions, rawActions, meActions,
          indexById, mapGet, hp]
  | some m =>
      obtain ⟨hauth, hui, htrim, -, -, hac, hacnd⟩ := h
      have hraw : rawActions (some m) = meActions (some m) := by
        unfold rawActions meActions
        cases hpp : m.ui_resources.bind (fun r => r.actions) <;>
          simp [hui, hpp]
      have hid : ∀ e ∈ meActions (some m), e.id ≠ "" := by
        intro e he heq
        have h1 := (hac e he).1
        rw [heq] at h1
        exact h1 (by decide)
      have hfilter : (meActions (some m)).filter (fun p => jsTrim p.id ≠ "") =
          meActions (some m) := by
        rw [List.filter_eq_self]
        intro e he
        simpa using (hac e he).1
      have hmg := mapGet_indexById (meActions (some m)) hid hacnd aid
      by_cases hpid : aid = ""
      · subst hpid
        have hnone : (meActions (some m)).find? (fun e => e.id = "")
            = none := by
          rw [List.find?_eq_none]
          intro e he
          simp [hid e he]
        simp [allowAction, meAllowAction, hmg, hnone]
      · unfold allowAction meAllowAction getUIActions
        rw [if_neg hpid, hmg, hraw, hfilter]
        have hfm : ((meActions (some m)).map
            (fun p => (⟨p.id, normalizeRequires p.requires⟩ : UIEntry))).find?
              (fun p => p.id = aid) =
            ((meActions (some m)).find? (fun e => e.id = aid)).map
              (fun p => (⟨p.id, normalizeRequires p.requires⟩ : UIEntry)) := by
          rw [List.find?_map]
          rfl
        rw [hfm]
        cases hf : (meActions (some m)).find? (fun e => e.id = aid) with
        | none => rfl
        | some e =>
            simp only [Option.map_some']
            exact requireAll_norm _ _ e.requires
              (hac e (List.mem_of_find?_eq_some hf)).2
              (eff_granted_contains m hauth htrim)

/-- Context for the C8 counterexample: each list declares the same id twice,
first with a nonempty requires list, then permission-free. -/
def meC8 : Option Me :=
  some ⟨some [], none,
    some ⟨some [⟨("p"), some [("x")]⟩, ⟨("p"), none⟩],
          some [⟨("a"), some [("x")]⟩, ⟨("a"), none⟩]⟩, none⟩

/-- Claim C8 counterexample: the entries with id p and id a and no requires
are declared in the ui_resources lists, yet allowPage/allowAction return
false, because an earlier duplicate entry with an unmet requires list
shadows them (find? takes the first match). -/
theorem allow_declared_permission_free_counterexample :
    (UIEntry.mk ("p") none) ∈ rawPages meC8 ∧
    allowPage meC8 ("p") = false ∧
    (UIEntry.mk ("a") none) ∈ rawActions meC8 ∧
    allowAction meC8 ("a") = false := by
  decide

/-- Claim C8 as amended: ids not declared in the lists the code reads are
denied; a null context is denied; and a declared entry with missing, null or
empty requires is allowed for any context, PROVIDED its id does not trim to
blank and no other declared entry shares its id. -/
theorem allow_declared_permission_free_amended :
    (∀ me pid, (∀ e ∈ rawPages me, e.id ≠ pid) →
      allowPage me pid = false) ∧
    (∀ me aid, (∀ e ∈ rawActions me, e.id ≠ aid) →
      allowAction me aid = false) ∧
    (∀ pid, allowPage none pid = false) ∧
    (∀ aid, allowAction none aid = false) ∧
    (∀ me e, e ∈ rawPages me →
      (e.requires = none ∨ e.requires = some []) → jsTrim e.id ≠ "" →
      (∀ e2 ∈ rawPages me, e2.id = e.id → e2 = e) →
      allowPage me e.id = true) ∧
    (∀ me e, e ∈ rawActions me →
      (e.requires = none ∨ e.requires = some []) → jsTrim e.id ≠ "" →
      (∀ e2 ∈ rawActions me, e2.id = e.id → e2 = e) →
      allowAction me e.id = true) := by
  have hundeclared : ∀ (raw : List UIEntry) (pid : String),
      (∀ e ∈ raw, e.id ≠ pid) →
      ((raw.filter (fun p => jsTrim p.id ≠ "")).map
        (fun p => (⟨p.id, normalizeRequires p.requires⟩ : UIEntry))).find?
          (fun p => p.id = pid) = none := by
    intro raw pid hne
    rw [List.find?_eq_none]
    intro x hx
    obtain ⟨orig, hof, hoe⟩ := List.mem_map.mp hx
    have horig : orig ∈ raw := List.mem_of_mem_filter hof
    rw [← hoe]
    simp [hne orig horig]
  have hdeclared : ∀ (raw : List UIEntry) (e : UIEntry) (hv : List String),
      e ∈ raw → (e.requires = none ∨ e.requires = some []) →
      jsTrim e.id ≠ "" → (∀ e2 ∈ raw, e2.id = e.id → e2 = e) →
      (match ((raw.filter (fun p => jsTrim p.id ≠ "")).map
          (fun p => (⟨p.id, normalizeRequires p.requires⟩ : UIEntry))).find?
            (fun p => p.id = e.id) with
       | none => false
       | some found => requireAll hv found.requires) = true := by
    intro raw e hv hmem hreqe hide huniq
    have hmemf : e ∈ raw.filter (fun p => jsTrim p.id ≠ "") :=
      List.mem_filter.mpr ⟨hmem, by simpa using hide⟩
    have hmemm : (⟨e.id, normalizeRequires e.requires⟩ : UIEntry) ∈
        (raw.filter (fun p => jsTrim p.id ≠ "")).map
          (fun p => (⟨p.id, normalizeRequires p.requires⟩ : UIEntry)) :=
      List.mem_map_of_mem _ hmemf
    have hisSome : (((raw.filter (fun p => jsTrim p.id ≠ "")).map
        (fun p => (⟨p.id, normalizeRequires p.requires⟩ : UIEntry))).find?
          (fun p => p.id = e.id)).isSome :=
      List.find?_isSome.mpr ⟨_, hmemm, by simp⟩
    obtain ⟨x, hx⟩ := Option.isSome_iff_exists.mp hisSome
    rw [hx]
    have hxmem := List.mem_of_find?_eq_some hx
    have hxid : x.id = e.id := by simpa using List.find?_some hx
    obtain ⟨orig, hof, hoe⟩ := List.mem_map.mp hxmem
    have horig : orig ∈ raw := List.mem_of_mem_filter hof
    have hoid : orig.id = e.id := by
      rw [← hxid, ← hoe]
    have horige : orig = e := huniq orig horig hoid
    subst horige
    rw [← hoe]
    rcases hreqe with h | h <;> simp [normalizeRequires, h, requireAll]
  refine ⟨?_, ?_, ?_, ?_, ?_, ?_⟩
  · intro me pid hne
    by_cases hpid : pid = ""
    · simp [allowPage, hpid]
    · unfold allowPage getUIPages
      rw [if_neg hpid, hundeclared (rawPages me) pid hne]
  · intro me aid hne
    by_cases haid : aid = ""
    · simp [allowAction, haid]
    · unfold allowAction getUIActions
      rw [if_neg haid, hundeclared (rawActions me) aid hne]
  · intro pid
    by_cases hpid : pid = "" <;>
      simp [allowPage, hpid, getUIPages, rawPages]
  · intro aid
    by_cases haid : aid = "" <;>
      simp [allowAction, haid, getUIActions, rawActions]
  · intro me e hmem hreqe hide huniq
    have hidne : e.id ≠ "" := by
      intro hh
      rw [hh] at hide
      exact hide (by decide)
    unfold allowPage getUIPages
    rw [if_neg hidne]
    exact hdeclared (rawPages me) e (getEffectivePermissions me)
      hmem hreqe hide huniq
  · intro me e hmem hreqe hide huniq
    have hidne : e.id ≠ "" := by
      intro hh
      rw [hh] at hide
      exact hide (by decide)
    unfold allowAction getUIActions
    rw [if_neg hidne]
    exact hdeclared (rawActions me) e (getEffectivePermissions me)
      hmem hreqe hide huniq

/-- A clean declared context for witnesses: one permission-free page and one
empty-requires action. -/
def meW8 : Option Me :=
  some ⟨some [("students.view")], none,
    some ⟨some [⟨("students"), none⟩], some [⟨("export"), some []⟩]⟩, none⟩

/-- Witness for allow_declared_permission_free_amended at concrete inputs. -/
theorem allow_declared_permission_free_amended_witness :
    allowPage meW8 ("nope") = false ∧
    allowAction meW8 ("nah") = false ∧
    allowPage none ("students") = false ∧
    allowAction none ("export") = false ∧
    allowPage meW8 ("students") = true ∧
    allowAction meW8 ("export") = true := by
  refine ⟨?_, ?_, ?_, ?_, ?_, ?_⟩
  · exact allow_declared_permission_free_amended.1 meW8 ("nope") (by decide)
  · exact allow_declared_permission_free_amended.2.1 meW8 ("nah") (by decide)
  · exact allow_declared_permission_free_amended.2.2.1 ("students")
  · exact allow_declared_permission_free_amended.2.2.2.1 ("export")
  · exact allow_declared_permission_free_amended.2.2.2.2.1 meW8
      ⟨("students"), none⟩ (by decide) (Or.inl rfl) (by decide) (by decide)
  · exact allow_declared_permission_free_amended.2.2.2.2.2 meW8
      ⟨("export"), some []⟩ (by decide) (Or.inr rfl) (by decide) (by decide)

/-- Duplicate-id context on which the two gate implementations disagree:
acl.ts find? takes the first declared entry, the MeContext Map keeps the
last. -/
def meDup : Option Me :=
  some ⟨some [], none,
    some ⟨some [⟨("p"), some [("x")]⟩, ⟨("p"), none⟩], some []⟩, none⟩

/-- Claim C9 counterexample: the two gate implementations disagree — on the
empty need list (requireAny succeeds, hasAny fails), on permission strings
with surrounding whitespace (requireAny matches raw, hasAny matches
trimmed), and on duplicate declared ids (first-match versus last-set). -/
theorem acl_mectx_gate_equiv_counterexample :
    (requireAny [] (some []) = true ∧
      meHasAny (some ⟨some [], none, none, none⟩) [] = false) ∧
    (requireAny [("a ")] (some [("a ")]) = true ∧
      meHasAny (some ⟨some [("a ")], none, none, none⟩) [("a ")] = false) ∧
    (allowPage meDup ("p") = false ∧ meAllowPage meDup ("p") = true) := by
  decide

/-- Claim C9 as amended: the acl.ts and MeContext.tsx gates agree on every
page and action id for contexts in clean DTO shape (no auth fallback, no
camelCase alias, trim-invariant permission strings, clean duplicate-free ui
entries); and requireAny(have, need) equals hasAny(need) over permissions
have whenever have is trim-invariant and need is a nonempty list of
trim-invariant nonblank strings. -/
theorem acl_mectx_gate_equiv_amended :
    (∀ me, dtoClean me → ∀ pid aid,
      allowPage me pid = meAllowPage me pid ∧
      allowAction me aid = meAllowAction me aid) ∧
    (∀ (hv l : List String), (∀ p ∈ hv, jsTrim p = p) →
      (∀ p ∈ l, jsTrim p = p ∧ p ≠ "") → l ≠ [] →
      requireAny hv (some l) =
        meHasAny (some ⟨some hv, none, none, none⟩) l) := by
  constructor
  · intro me h pid aid
    exact ⟨allowPage_equiv me h pid, allowAction_equiv me h aid⟩
  · intro hv l hhv hl hlne
    simp only [requireAny, meHasAny, meGranted, asSet, Option.some_bind,
      Option.getD_some]
    rw [if_neg hlne]
    apply list_any_congr
    intro p hp
    have hmap : hv.map (fun s => jsTrim s) = hv := by
      rw [List.map_congr_left hhv]
      exact List.map_id hv
    rw [hmap, Bool.eq_iff_iff, List.elem_iff, List.elem_iff]
    constructor
    · intro hmem
      exact List.mem_filter.mpr ⟨hmem, by simpa using (hl p hp).2⟩
    · intro hmem
      exact (List.mem_filter.mp hmem).1

/-- Witness for acl_mectx_gate_equiv_amended at a concrete clean context. -/
theorem acl_mectx_gate_equiv_amended_witness :
    (allowPage meW8 ("students") = meAllowPage meW8 ("students") ∧
      allowAction meW8 ("export") = meAllowAction meW8 ("export")) ∧
    requireAny [("a")] (some [("a")]) =
      meHasAny (some ⟨some [("a")], none, none, none⟩) [("a")] := by
  constructor
  · exact acl_mectx_gate_equiv_amended.1 meW8 (by decide)
      ("students") ("export")
  · exact acl_mectx_gate_equiv_amended.2 [("a")] [("a")]
      (by decide) (by decide) (by decide)

/-- Claim C10 counterexample: with no perm, page or action check specified,
the first Acl gate (evaluateAccess) ALLOWS a non-null context while the
second gate (decide) denies with its no-rules fail-safe, so the two gates do
not agree and do not both deny. -/
theorem acl_components_counterexample :
    firstAclAllowed (some ⟨some [], none, some ⟨some [], some []⟩, none⟩)
        PermArg.noPerm none none Mode.all = true ∧
    decideGate (some ⟨some [], none, some ⟨some [], some []⟩, none⟩)
        none none none Mode.all = false := by
  decide

/-- Bool form: some listed element is missing from g iff not all are in g. -/
theorem decide_bex_not (l g : List String) :
    decide (∃ x ∈ l, x ∉ g) = !(l.all fun p => decide (p ∈ g)) := by
  induction l with
  | nil => simp
  | cons a as ih => by_cases h : a ∈ g <;> simp [h, ih]

/-- Bool form: every listed element is missing from g iff none is in g. -/
theorem decide_ball_not (l g : List String) :
    decide (∀ x ∈ l, x ∉ g) = !(l.any fun p => decide (p ∈ g)) := by
  induction l with
  | nil => simp
  | cons a as ih => by_cases h : a ∈ g <;> simp [h, ih]

/-- Claim C10 as amended: the two gates agree whenever the invocation
specifies exactly one check — a nonempty page id, a nonempty action id, a
single perm string (matched against a one-element requires list), or a
nonempty perm list — and the context is in clean DTO shape; with no check at
all they disagree (evaluateAccess allows, decide denies). -/
theorem acl_components_single_check_equiv :
    (∀ me mode p, dtoClean me → p ≠ "" →
      firstAclAllowed me PermArg.noPerm (some p) none mode =
        decideGate me (some p) none none mode) ∧
    (∀ me mode a, dtoClean me → a ≠ "" →
      firstAclAllowed me PermArg.noPerm none (some a) mode =
        decideGate me none (some a) none mode) ∧
    (∀ me mode s, dtoClean me →
      firstAclAllowed me (PermArg.strP s) none none mode =
        decideGate me none none (some [s]) mode) ∧
    (∀ me mode l, dtoClean me → l ≠ [] →
      firstAclAllowed me (PermArg.arrP l) none none mode =
        decideGate me none none (some l) mode) := by
  refine ⟨?_, ?_, ?_, ?_⟩
  · intro me mode p h hp
    cases me with
    | none => rfl
    | some m =>
        have he := allowPage_equiv (some m) h p
        cases hb : meAllowPage (some m) p <;>
          simp [firstAclAllowed, evaluateAccess, decideGate, orEmpty, hp,
            hb, he]
  · intro me mode a h ha
    cases me with
    | none => rfl
    | some m =>
        have he := allowAction_equiv (some m) h a
        cases hb : meAllowAction (some m) a <;>
          simp [firstAclAllowed, evaluateAccess, decideGate, orEmpty, ha,
            hb, he]
  · intro me mode s h
    cases me with
    | none => cases mode <;> rfl
    | some m =>
        obtain ⟨hauth, -, htrim, -, -, -, -⟩ := h
        have hcont := eff_granted_contains m hauth htrim
        have hconm : ∀ x, x ∈ getEffectivePermissions (some m) ↔
            x ∈ meGranted (some m) := by
          intro x
          constructor
          · intro hx
            have h1 : (getEffectivePermissions (some m)).contains x = true :=
              List.elem_iff.mpr hx
            have h2 : (meGranted (some m)).contains x = true := by
              rw [← hcont x]
              exact h1
            exact List.elem_iff.mp h2
          · intro hx
            have h1 : (meGranted (some m)).contains x = true :=
              List.elem_iff.mpr hx
            have h2 : (getEffectivePermissions (some m)).contains x = true := by
              rw [hcont x]
              exact h1
            exact List.elem_iff.mp h2
        cases hb : (meGranted (some m)).contains s <;> cases mode <;>
          simp [firstAclAllowed, evaluateAccess, decideGate, orEmpty,
            meHas, requireAll, requireAny, hcont s, hb, hconm]
  · intro me mode l h hlne
    cases me with
    | none => cases mode <;> rfl
    | some m =>
        obtain ⟨hauth, -, htrim, -, -, -, -⟩ := h
        have hcont := eff_granted_contains m hauth htrim
        have hconm : ∀ x, x ∈ getEffectivePermissions (some m) ↔
            x ∈ meGranted (some m) := by
          intro x
          constructor
          · intro hx
            have h1 : (getEffectivePermissions (some m)).contains x = true :=
              List.elem_iff.mpr hx
            have h2 : (meGranted (some m)).contains x = true := by
              rw [← hcont x]
              exact h1
            exact List.elem_iff.mp h2
          · intro hx
            have h1 : (meGranted (some m)).contains x = true :=
              List.elem_iff.mpr hx
            have h2 : (getEffectivePermissions (some m)).contains x = true := by
              rw [hcont x]
              exact h1
            exact List.elem_iff.mp h2
        have hall : l.all
              (fun p => (getEffectivePermissions (some m)).contains p) =
            l.all (fun p => (meGranted (some m)).contains p) :=
          list_all_congr l _ _ (fun p _ => hcont p)
        have hany : l.any
              (fun p => (getEffectivePermissions (some m)).contains p) =
            l.any (fun p => (meGranted (some m)).contains p) :=
          list_any_congr l _ _ (fun p _ => hcont p)
        cases mode with
        | all =>
            cases hb : l.all (fun p => (meGranted (some m)).contains p) <;>
              simp [firstAclAllowed, evaluateAccess, decideGate, requireAll,
                orEmpty, hlne, meHasAll, hall, hb, hconm, decide_bex_not,
                decide_ball_not]
        | any =>
            cases hb : l.any (fun p => (meGranted (some m)).contains p) <;>
              simp [firstAclAllowed, evaluateAccess, decideGate, requireAny,
                orEmpty, hlne, meHasAny, hany, hb, hconm, decide_bex_not,
                decide_ball_not]

/-- Witness for acl_components_single_check_equiv at concrete inputs. -/
theorem acl_components_single_check_equiv_witness :
    (firstAclAllowed meW8 PermArg.noPerm (some ("students")) none Mode.all =
      decideGate meW8 (some ("students")) none none Mode.all) ∧
    (firstAclAllowed meW8 PermArg.noPerm none (some ("export")) Mode.all =
      decideGate meW8 none (some ("export")) none Mode.all) ∧
    (firstAclAllowed meW8 (PermArg.strP ("students.view")) none none
        Mode.all =
      decideGate meW8 none none (some [("students.view")]) Mode.all) ∧
    (firstAclAllowed meW8 (PermArg.arrP [("students.view")]) none none
        Mode.any =
      decideGate meW8 none none (some [("students.view")]) Mode.any) := by
  refine ⟨?_, ?_, ?_, ?_⟩
  · exact acl_components_single_check_equiv.1 meW8 Mode.all ("students")
      (by decide) (by decide)
  · exact acl_components_single_check_equiv.2.1 meW8 Mode.all ("export")
      (by decide) (by decide)
  · exact acl_components_single_check_equiv.2.2.1 meW8 Mode.all
      ("students.view") (by decide)
  · exact acl_components_single_check_equiv.2.2.2 meW8 Mode.any
      [("students.view")] (by decide) (by decide)
